import Mathlib

/-
Verification of the redaction rule resolution engine in
insights/client/collection_rules.py.

The embedding models the module at the parse-result boundary: the YAML and
INI parsers (external libraries) are represented by their possible outcomes
(`YamlParse`, `IniParse`), the filesystem by an `Env` record carrying, for
each of the three rule files, whether it exists, its permission mode and its
parsed content.  Everything downstream of those boundaries (shape
validation, permission gating, precedence between the structured and the
legacy format, merging, filtering, report building) is translated directly
from the source.
-/

namespace CollectionRules

/-- A parsed YAML/JSON-like value, as produced by `yaml.safe_load`.
Mappings are association lists of string keys (Python dicts from
`yaml.safe_load` have unique keys; well-formedness is stated separately
where a proof needs it). -/
inductive Val where
  | vnull
  | vbool (b : Bool)
  | vnum (n : Int)
  | vstr (s : String)
  | vlist (xs : List Val)
  | vdict (entries : List (String × Val))

/-- A parsed top-level document: a mapping from string keys to values. -/
abbrev Doc := List (String × Val)

/-- First value stored under key `k` (Python dict lookup). -/
def docFind : Doc → String → Option Val
  | [], _ => none
  | (k', v) :: rest, k => if k' = k then some v else docFind rest k

/-- The keys of a document, in order. -/
def docKeys (d : Doc) : List String := d.map Prod.fst

/-- Python dict item assignment `d[k] = v`: replace the value at an existing
key, otherwise append the binding. -/
def insertKV : Doc → String → Val → Doc
  | [], k, v => [(k, v)]
  | (k', v') :: rest, k, v =>
    if k' = k then (k', v) :: rest else (k', v') :: insertKV rest k v

/-- Python `dict.update`: fold the right-hand document's bindings into the
left one, later bindings overwriting earlier ones. -/
def dictUpdate (a b : Doc) : Doc :=
  b.foldl (fun acc kv => insertKV acc kv.1 kv.2) a

/-- `true` when a list of string keys has no duplicates; a Python dict
always satisfies this for its key list. -/
def nodupKeys : List String → Bool
  | [] => true
  | k :: rest => !(decide (k ∈ rest)) && nodupKeys rest

/-- Python truthiness of a parsed value: `None`, `False`, `0`, the empty
string, the empty list and the empty mapping are falsy. -/
def Val.truthy : Val → Bool
  | Val.vnull => false
  | Val.vbool b => b
  | Val.vnum n => decide (n ≠ 0)
  | Val.vstr s => !(decide (s = ""))
  | Val.vlist xs => !xs.isEmpty
  | Val.vdict m => !m.isEmpty

/-- `is_list_of_strings` helper of `correct_format` (lines 107-119):
`None` counts as an empty list, otherwise the value must be a list all of
whose elements are strings. -/
def is_list_of_strings : Val → Bool
  | Val.vnull => true
  | Val.vlist xs => xs.all fun x => match x with | Val.vstr _ => true | _ => false
  | _ => false

/-- Per-key value check of the `correct_format` loop (lines 128-139),
factored out: for `patterns` a mapping is accepted exactly when `regex` is
present, it is the sole key, and its value is a list of strings (or
`None`); every other shape goes through `is_list_of_strings`. -/
def value_ok (k : String) (v : Val) : Bool :=
  if k = "patterns" then
    match v with
    | Val.vdict m =>
      match docFind m "regex" with
      | none => false
      | some rv => if m.length > 1 then false else is_list_of_strings rv
    | _ => is_list_of_strings v
  else is_list_of_strings v

/-- The `for k in expected_keys` loop of `correct_format` (lines 128-139),
returning the first error with its message. -/
def check_expected (d : Doc) : List String → Bool × Option String
  | [] => (false, none)
  | k :: rest =>
    match docFind d k with
    | none => check_expected d rest
    | some v =>
      if k = "patterns" then
        match v with
        | Val.vdict m =>
          match docFind m "regex" with
          | none =>
            (true, some "Patterns section contains an object but the \"regex\" key was not specified.")
          | some rv =>
            if m.length > 1 then
              (true, some "Unknown keys in the patterns section. Only \"regex\" is valid.")
            else if is_list_of_strings rv then check_expected d rest
            else (true, some "regex section under patterns must be a list of strings.")
        | _ =>
          if is_list_of_strings v then check_expected d rest
          else (true, some (k ++ " section must be a list of strings."))
      else
        if is_list_of_strings v then check_expected d rest
        else (true, some (k ++ " section must be a list of strings."))

/-- `correct_format(parsed_data, expected_keys, filename)` (lines 100-140):
returns `(True, message)` on a schema error and `(False, None)` on success.
First every key must be an expected one, then each present value is shape
checked. -/
def correct_format (parsed_data : Doc) (expected : List String) (filename : String) :
    Bool × Option String :=
  if ((docKeys parsed_data).filter fun k => !(decide (k ∈ expected))).isEmpty then
    check_expected parsed_data expected
  else
    (true, some ("Unknown section(s) in " ++ filename ++ ": " ++
      String.intercalate ", "
        ((docKeys parsed_data).filter fun k => !(decide (k ∈ expected))).dedup ++
      "\nValid sections are " ++ String.intercalate ", " expected ++ "."))

/-- Outcome of `yaml.safe_load` on a file: either the parser raised, or it
produced a value (`vnull` for an empty document). -/
inductive YamlParse where
  | failure (msg : String)
  | success (v : Val)

/-- `load_yaml(filename)` (lines 143-158): a parse failure is fatal with a
remediation hint, an empty document yields an empty mapping, a non-mapping
top-level value is fatal with `Invalid YAML loaded`. -/
def load_yaml (filename : String) (p : YamlParse) : Except String Doc :=
  match p with
  | YamlParse.failure e =>
    Except.error ("ERROR: Cannot parse " ++ filename ++ ".\n" ++
      "If using any YAML tokens such as [] in an expression, " ++
      "be sure to wrap the expression in quotation marks.\n\nError details:\n" ++ e ++ "\n")
  | YamlParse.success Val.vnull => Except.ok []
  | YamlParse.success (Val.vdict m) => Except.ok m
  | YamlParse.success _ => Except.error "ERROR: Invalid YAML loaded."

/-- Octal rendering of a mode, as Python's `oct` produces (`0o600`). -/
def octDigits (n : Nat) : List Char :=
  if h : n < 8 then [Char.ofNat (48 + n)]
  else octDigits (n / 8) ++ [Char.ofNat (48 + n % 8)]
decreasing_by
  exact Nat.div_lt_self (by omega) (by omega)

def octString (n : Nat) : String := "0o" ++ String.mk (octDigits n)

/-- `verify_permissions(f)` (lines 161-169): fails unless the file's access
mode is exactly `0600`. -/
def verify_permissions (f : String) (mode : Nat) : Except String Unit :=
  if mode = 0o600 then Except.ok ()
  else Except.error ("Invalid permissions on " ++ f ++ ". Expected 0600 got " ++ octString mode)

/-- Outcome of `ConfigParser.read` + `sections()` + `items(...)` on the
legacy INI file: either the parser raised a `ConfigParser.Error`, or it
produced a list of sections, each with its item list. -/
inductive IniParse where
  | failure
  | success (sections : List (String × List (String × String)))

/-- The fields of the external configuration collaborator that this module
reads. -/
structure Config where
  validate : Bool
  obfuscate : Bool
  obfuscate_hostname : Bool
  remove_file : String
  redaction_file : String
  content_redaction_file : String
  logging_file : String

/-- Filesystem state of the three rule files: existence, permission mode
and parsed content for each. -/
structure Env where
  remove_exists : Bool
  remove_mode : Nat
  remove_ini : IniParse
  redaction_exists : Bool
  redaction_mode : Nat
  redaction_yaml : YamlParse
  content_exists : Bool
  content_mode : Nat
  content_yaml : YamlParse

def mkEnv (re : Bool) (rm : Nat) (ri : IniParse) (de : Bool) (dm : Nat) (dy : YamlParse)
    (ce : Bool) (cm : Nat) (cy : YamlParse) : Env :=
  Env.mk re rm ri de dm dy ce cm cy

/-- The mutable per-instance state of `InsightsUploadConf`:
`using_new_format` and the observed `rm_conf`. -/
structure ClientState where
  using_new_format : Bool
  rm_conf : Option Doc

/-- State after `__init__` (lines 188-193): no rule set yet, new format
favored by default. -/
def initState : ClientState := ClientState.mk true none

/-- `expected_keys` (line 24): the keys the legacy loader accepts. -/
def expected_keys : List String := ["commands", "files", "patterns", "keywords"]

/-- Which of the two structured rule files is being loaded. -/
inductive RFile where
  | redaction
  | content

/-- The `try: verify_permissions ... except RuntimeError` block shared by
both loaders (lines 206-212 and 259-265): a permission failure is fatal in
validate mode and otherwise downgraded to a warning. -/
def permGate (cfg : Config) (f : String) (mode : Nat) : Except String Unit :=
  match verify_permissions f mode with
  | Except.error e => if cfg.validate then Except.error ("ERROR: " ++ e) else Except.ok ()
  | Except.ok _ => Except.ok ()

/-- Body of `load_redaction_file` (lines 244-274) for one file: absent
files yield `None`, then permission gate, YAML load, and schema check with
the expected-key set of that file. -/
def load_redaction_core (cfg : Config) (fname : String) (fex : Bool) (fmode : Nat)
    (fy : YamlParse) (exp : List String) : Except String (Option Doc) :=
  if fex then
    match permGate cfg fname fmode with
    | Except.error e => Except.error e
    | Except.ok _ =>
      match load_yaml fname fy with
      | Except.error e => Except.error e
      | Except.ok loaded =>
        match correct_format loaded exp fname with
        | (true, msg) => Except.error ("ERROR: " ++ msg.getD "")
        | (false, _) => Except.ok (some loaded)
  else Except.ok none

/-- `load_redaction_file(fname)` (lines 244-274): dispatches on which of
the two structured files is requested; `file-redaction.conf` accepts
`{commands, files, components}` and `file-content-redaction.conf` accepts
`{patterns, keywords}`. -/
def load_redaction_file (cfg : Config) (env : Env) (which : RFile) : Except String (Option Doc) :=
  match which with
  | RFile.redaction =>
    load_redaction_core cfg cfg.redaction_file env.redaction_exists env.redaction_mode
      env.redaction_yaml ["commands", "files", "components"]
  | RFile.content =>
    load_redaction_core cfg cfg.content_redaction_file env.content_exists env.content_mode
      env.content_yaml ["patterns", "keywords"]

/-- Python `str.strip()` on both ends. -/
def stripChars (l : List Char) : List Char :=
  ((l.dropWhile Char.isWhitespace).reverse.dropWhile Char.isWhitespace).reverse

def pyStrip (s : String) : String := String.mk (stripChars s.data)

/-- Models the `unicode-escape` decoding step of the legacy loader
(line 231) for the standard single-character escape table; escape forms not
in the table (such as hex or unicode escapes) are kept verbatim. -/
def unescapeChars : List Char → List Char
  | [] => []
  | '\\' :: c :: rest =>
    (if c = 'n' then ['\n']
     else if c = 't' then ['\t']
     else if c = 'r' then ['\r']
     else if c = '\\' then ['\\']
     else if c = '\'' then ['\'']
     else if c = '"' then ['"']
     else if c = 'a' then [Char.ofNat 7]
     else if c = 'b' then [Char.ofNat 8]
     else if c = 'f' then [Char.ofNat 12]
     else if c = 'v' then [Char.ofNat 11]
     else if c = '0' then [Char.ofNat 0]
     else ['\\', c]) ++ unescapeChars rest
  | c :: rest => c :: unescapeChars rest

def pyUnescape (s : String) : String := String.mk (unescapeChars s.data)

/-- Python `str.split(',')`: split at every comma; the empty string yields
one empty piece. -/
def splitCommaAux : List Char → List Char → List String
  | [], acc => [String.mk acc.reverse]
  | c :: rest, acc =>
    if c = ',' then String.mk acc.reverse :: splitCommaAux rest []
    else splitCommaAux rest (c :: acc)

def pySplitComma (s : String) : List String := splitCommaAux s.data []

/-- The legacy value transformation (lines 230-233):
`value.strip().encode('utf-8').decode('unicode-escape').split(',')`. -/
def legacyValue (value : String) : List String :=
  pySplitComma (pyUnescape (pyStrip value))

/-- The `for item, value in parsedconfig.items('remove')` loop of
`get_rm_conf_old` (lines 226-233): reject unknown keys, otherwise store the
unescaped comma-split value. -/
def build_rm_conf : Doc → List (String × String) → Except String Doc
  | acc, [] => Except.ok acc
  | acc, (item, value) :: rest =>
    if item ∈ expected_keys then
      build_rm_conf (insertKV acc item (Val.vlist ((legacyValue value).map Val.vstr))) rest
    else
      Except.error ("ERROR: Unknown key in remove.conf: " ++ item ++
        "\nValid keys are " ++ String.intercalate ", " expected_keys ++ ".")

/-- `get_rm_conf_old` (lines 195-242): the legacy INI loader. It sets
`using_new_format` to `False` first thing, returns `None` when the file is
absent or defines no section, requires the single section `remove`, and
parses each value with the legacy unescaping semantics. -/
def get_rm_conf_old (cfg : Config) (env : Env) (st : ClientState) :
    Except String (Option Doc × ClientState) :=
  let st1 := ClientState.mk false st.rm_conf
  if env.remove_exists then
    match permGate cfg cfg.remove_file env.remove_mode with
    | Except.error e => Except.error e
    | Except.ok _ =>
      match env.remove_ini with
      | IniParse.failure =>
        Except.error ("ERROR: Cannot parse the remove.conf file.\nSee " ++
          cfg.logging_file ++ " for more information.")
      | IniParse.success sections =>
        match sections with
        | [] => Except.ok (none, st1)
        | (name, items) :: restSections =>
          if name = "remove" ∧ restSections = [] then
            match build_rm_conf [] items with
            | Except.error e => Except.error e
            | Except.ok rm => Except.ok (some rm, ClientState.mk false (some rm))
          else
            Except.error "ERROR: invalid section(s) in remove.conf. Only \"remove\" is valid."
  else Except.ok (none, st1)

/-- Truthiness of an optional document (`None` and `{}` are falsy). -/
def truthyOpt : Option Doc → Bool
  | none => false
  | some d => !d.isEmpty

/-- Lines 281-288 of `get_rm_conf`: start from `{}` and `update` with each
truthy structured fragment in turn. -/
def mergeDocs (rc cc : Option Doc) : Doc :=
  let rm1 := if truthyOpt rc then dictUpdate [] (Option.getD rc []) else []
  if truthyOpt cc then dictUpdate rm1 (Option.getD cc []) else rm1

/-- `get_rm_conf` (lines 276-298): load both structured fragments; when
both are falsy fall back entirely to the legacy loader, otherwise merge the
fragments and drop every falsy value. -/
def get_rm_conf (cfg : Config) (env : Env) (st : ClientState) :
    Except String (Option Doc × ClientState) :=
  match load_redaction_file cfg env RFile.redaction with
  | Except.error e => Except.error e
  | Except.ok redact_conf =>
    match load_redaction_file cfg env RFile.content with
    | Except.error e => Except.error e
    | Except.ok content_redact_conf =>
      if !truthyOpt redact_conf && !truthyOpt content_redact_conf then
        get_rm_conf_old cfg env st
      else
        let filtered := (mergeDocs redact_conf content_redact_conf).filter
          fun kv => (kv.2).truthy
        Except.ok (some filtered, ClientState.mk st.using_new_format (some filtered))

/-- The report produced by `create_report` (lines 351-361). -/
structure Report where
  obfuscate : Bool
  obfuscate_hostname : Bool
  commands : Nat
  files : Nat
  components : Nat
  patterns : Nat
  keywords : Nat
  using_new_format : Bool
  using_patterns_regex : Bool

/-- The `length` helper of `create_report` (lines 315-324): a sequence that
is exactly one empty string counts as zero.  `none` models the `TypeError`
Python's `len` raises on values without a length (and the `KeyError` path
for a singleton mapping indexed by `0`). -/
def lengthVal : Val → Option Nat
  | Val.vlist [Val.vstr s] => some (if s = "" then 0 else 1)
  | Val.vlist xs => some xs.length
  | Val.vstr s => some s.length
  | Val.vdict m => if m.length = 1 then none else some m.length
  | Val.vnull => none
  | Val.vbool _ => none
  | Val.vnum _ => none

/-- Count for one plain category key in `create_report`: absent keys count
zero. -/
def countListKey (d : Doc) (k : String) : Option Nat :=
  match docFind d k with
  | none => some 0
  | some v => lengthVal v

/-- The `patterns` count of `create_report` (lines 342-347): a mapping
counts its `regex` sequence and flags regex use, any other value is counted
directly. -/
def patCount (d : Doc) : Option (Nat × Bool) :=
  match docFind d "patterns" with
  | none => some (0, false)
  | some (Val.vdict m) =>
    match docFind m "regex" with
    | none => none
    | some rv => (lengthVal rv).map fun n => (n, true)
  | some v => (lengthVal v).map fun n => (n, false)

/-- `create_report` (lines 314-361): per-category counts with the
empty-string special case, regex detection for mapping-shaped `patterns`,
and pass-through of the obfuscation flags and `using_new_format`. -/
def create_report (cfg : Config) (st : ClientState) : Option Report :=
  let base : Report :=
    Report.mk cfg.obfuscate cfg.obfuscate_hostname 0 0 0 0 0 st.using_new_format false
  match st.rm_conf with
  | none => some base
  | some d =>
    if d.isEmpty then some base
    else
      match countListKey d "commands", countListKey d "files", countListKey d "components",
        patCount d, countListKey d "keywords" with
      | some nc, some nf, some ncp, some pr, some nk =>
        some (Report.mk cfg.obfuscate cfg.obfuscate_hostname nc nf ncp pr.1 nk
          st.using_new_format pr.2)
      | _, _, _, _, _ => none

/-- Keep only the bindings whose key belongs to `ks` (used to split a
resolved rule set back into its two structured documents). -/
def docRestrict (d : Doc) (ks : List String) : Doc :=
  d.filter fun kv => decide (kv.1 ∈ ks)

/-- A parse outcome whose top-level mapping, if any, has no duplicate keys;
every outcome of `yaml.safe_load` has this shape, since Python dicts cannot
hold a key twice. -/
def nodupYaml : YamlParse → Bool
  | YamlParse.success (Val.vdict m) => nodupKeys (docKeys m)
  | _ => true

/-- The expected error outcome for a document whose `patterns` value is
the mapping `m`: accepted exactly when the sole key is `regex` and its
value is a list of strings (or `None`). -/
def patternsMapError (m : Doc) : Bool :=
  match m with
  | [(k, v)] => if k = "regex" then !(is_list_of_strings v) else true
  | _ => true

/-- `isinstance(v, dict)` on a parsed value. -/
def isDict : Val → Bool
  | Val.vdict _ => true
  | _ => false

/-- A fixed example configuration used by the concrete witnesses. -/
def cfg0 : Config :=
  Config.mk false false false "remove.conf" "file-redaction.conf"
    "file-content-redaction.conf" "insights.log"

/-- A configuration running in `--validate` (strict) mode. -/
def cfgV : Config :=
  Config.mk true false false "remove.conf" "file-redaction.conf"
    "file-content-redaction.conf" "insights.log"

/-- All three rule files absent. -/
def envAbs : Env :=
  mkEnv false 0 (IniParse.success []) false 0 (YamlParse.success Val.vnull)
    false 0 (YamlParse.success Val.vnull)

/-- Only the legacy file present (mode 0600) with a single `remove` section
holding one key/value pair. -/
def legacyEnv (item value : String) : Env :=
  mkEnv true 0o600 (IniParse.success [("remove", [(item, value)])]) false 0
    (YamlParse.success Val.vnull) false 0 (YamlParse.success Val.vnull)

/-- Only the structured command/file rule file present, defining a single
`commands` entry. -/
def envCmd : Env :=
  mkEnv false 0 (IniParse.success []) true 0o600
    (YamlParse.success (Val.vdict [("commands", Val.vlist [Val.vstr "x"])]))
    false 0 (YamlParse.success Val.vnull)

/-- Both structured files present with one category each; the legacy file
exists but is unparseable, which shows it is never consulted. -/
def envBoth : Env :=
  mkEnv true 0 IniParse.failure true 0o600
    (YamlParse.success (Val.vdict [("commands", Val.vlist [Val.vstr "c"])]))
    true 0o600
    (YamlParse.success (Val.vdict [("patterns", Val.vdict [("regex", Val.vlist [Val.vstr "p"])])]))

/-- The rule set `get_rm_conf` resolves from `envBoth`. -/
def docBoth : Doc :=
  [("commands", Val.vlist [Val.vstr "c"]),
   ("patterns", Val.vdict [("regex", Val.vlist [Val.vstr "p"])])]

/-- Legacy file present with a valid `commands` entry only. -/
def envLegacyCmd : Env := legacyEnv "commands" "cmd1,cmd2"

/-- An existing structured rule file with wrong permissions (0644). -/
def envPerm : Env :=
  mkEnv false 0 (IniParse.success []) true 0o644 (YamlParse.success Val.vnull)
    false 0 (YamlParse.success Val.vnull)

theorem splitCommaAux_ne_nil (l acc : List Char) : splitCommaAux l acc ≠ [] := by
  induction l generalizing acc with
  | nil => simp [splitCommaAux]
  | cons c rest ih =>
    simp only [splitCommaAux]
    split
    · simp
    · exact ih _

theorem legacyValue_ne_nil (value : String) : legacyValue value ≠ [] :=
  splitCommaAux_ne_nil _ _

theorem truthy_strlist {ss : List String} (h : ss ≠ []) :
    (Val.vlist (ss.map Val.vstr)).truthy = true := by
  cases ss with
  | nil => exact absurd rfl h
  | cons s rest => rfl

theorem is_list_of_strings_map (ss : List String) :
    is_list_of_strings (Val.vlist (ss.map Val.vstr)) = true := by
  induction ss with
  | nil => rfl
  | cons s rest ih => simp [is_list_of_strings] at ih ⊢

theorem value_ok_strlist (k : String) (ss : List String) :
    value_ok k (Val.vlist (ss.map Val.vstr)) = true := by
  unfold value_ok
  by_cases hk : k = "patterns" <;> simp [hk, is_list_of_strings_map]

theorem mem_insertKV {d : Doc} {k0 : String} {v0 : Val} {kv : String × Val}
    (h : kv ∈ insertKV d k0 v0) : kv = (k0, v0) ∨ kv ∈ d := by
  induction d with
  | nil => simpa [insertKV] using h
  | cons x rest ih =>
    rw [insertKV] at h
    split at h
    next heq =>
      rcases List.mem_cons.mp h with h1 | h1
      · left; rw [h1, heq]
      · right; exact List.mem_cons_of_mem _ h1
    next =>
      rcases List.mem_cons.mp h with h1 | h1
      · right; rw [h1]; exact List.mem_cons_self _ _
      · rcases ih h1 with h2 | h2
        · left; exact h2
        · right; exact List.mem_cons_of_mem _ h2

theorem mem_dictUpdate {b a : Doc} {kv : String × Val} (h : kv ∈ dictUpdate a b) :
    kv ∈ a ∨ kv ∈ b := by
  induction b generalizing a with
  | nil => exact Or.inl h
  | cons x xs ih =>
    have h' : kv ∈ dictUpdate (insertKV a x.1 x.2) xs := h
    rcases ih h' with h1 | h1
    · rcases mem_insertKV h1 with h2 | h2
      · right; rw [h2]; exact List.mem_cons_self _ _
      · left; exact h2
    · right; exact List.mem_cons_of_mem _ h1

theorem docFind_mem {d : Doc} {k : String} {v : Val} (h : docFind d k = some v) :
    (k, v) ∈ d := by
  induction d with
  | nil => simp [docFind] at h
  | cons x rest ih =>
    rw [docFind] at h
    split at h
    next heq =>
      cases h
      rw [← heq]
      exact List.mem_cons_self _ _
    next => exact List.mem_cons_of_mem _ (ih h)

theorem key_mem_docKeys {d : Doc} {kv : String × Val} (h : kv ∈ d) : kv.1 ∈ docKeys d :=
  List.mem_map_of_mem Prod.fst h

theorem mem_docFind {d : Doc} {k : String} {v : Val}
    (hnd : nodupKeys (docKeys d) = true) (h : (k, v) ∈ d) : docFind d k = some v := by
  induction d with
  | nil => simp at h
  | cons x rest ih =>
    have hnd' := hnd
    rw [show docKeys (x :: rest) = x.1 :: docKeys rest from rfl, nodupKeys,
      Bool.and_eq_true] at hnd'
    obtain ⟨hx, hrest⟩ := hnd'
    have hx' : x.1 ∉ docKeys rest := by
      intro hmem
      simp [hmem] at hx
    rcases List.mem_cons.mp h with h1 | h1
    · rw [← h1, docFind, if_pos rfl]
    · rw [docFind]
      split
      next heq =>
        exfalso
        apply hx'
        rw [heq]
        exact key_mem_docKeys h1
      next => exact ih hrest h1

theorem check_expected_cons_fst (d : Doc) (k : String) (rest : List String) :
    (check_expected d (k :: rest)).1 =
      match docFind d k with
      | none => (check_expected d rest).1
      | some v => if value_ok k v then (check_expected d rest).1 else true := by
  rw [check_expected]
  cases hf : docFind d k with
  | none => rfl
  | some v =>
    by_cases hk : k = "patterns"
    · simp only [hk, if_pos rfl, value_ok]
      cases v with
      | vdict m =>
        cases hr : docFind m "regex" with
        | none => simp [hr]
        | some rv =>
          by_cases hl : m.length > 1
          · simp [hr, hl]
          · cases his : is_list_of_strings rv <;> simp [hr, hl, his]
      | vnull => cases his : is_list_of_strings Val.vnull <;> simp [his]
      | vbool b => cases his : is_list_of_strings (Val.vbool b) <;> simp [his]
      | vnum n => cases his : is_list_of_strings (Val.vnum n) <;> simp [his]
      | vstr s => cases his : is_list_of_strings (Val.vstr s) <;> simp [his]
      | vlist xs => cases his : is_list_of_strings (Val.vlist xs) <;> simp [his]
    · simp only [if_neg hk, value_ok]
      cases his : is_list_of_strings v <;> simp [hk, his]

theorem check_expected_false_iff (d : Doc) (exp : List String) :
    (check_expected d exp).1 = false ↔
      ∀ k ∈ exp, ∀ v, docFind d k = some v → value_ok k v = true := by
  induction exp with
  | nil => simp [check_expected]
  | cons k rest ih =>
    cases hf : docFind d k with
    | none =>
      simp only [check_expected_cons_fst, hf]
      constructor
      · intro h k' hk' v hv
        rcases List.mem_cons.mp hk' with rfl | hk'
        · rw [hf] at hv; exact Option.noConfusion hv
        · exact (ih.mp h) k' hk' v hv
      · intro h
        exact ih.mpr fun k' hk' v hv => h k' (List.mem_cons_of_mem _ hk') v hv
    | some v0 =>
      simp only [check_expected_cons_fst, hf]
      by_cases hvk : value_ok k v0 = true
      · rw [if_pos hvk]
        constructor
        · intro h k' hk' v hv
          rcases List.mem_cons.mp hk' with rfl | hk'
          · rw [hf] at hv
            have hv' := Option.some.inj hv
            rw [← hv']
            exact hvk
          · exact (ih.mp h) k' hk' v hv
        · intro h
          exact ih.mpr fun k' hk' v hv => h k' (List.mem_cons_of_mem _ hk') v hv
      · rw [if_neg hvk]
        constructor
        · intro h
          exact absurd h (by simp)
        · intro h
          exact absurd (h k (List.mem_cons_self _ _) v0 hf) hvk

theorem correct_format_fst_false_iff (d : Doc) (exp : List String) (fn : String) :
    (correct_format d exp fn).1 = false ↔
      (∀ k ∈ docKeys d, k ∈ exp) ∧
        ∀ k ∈ exp, ∀ v, docFind d k = some v → value_ok k v = true := by
  rw [correct_format]
  by_cases hemp : ((docKeys d).filter fun k => !(decide (k ∈ exp))).isEmpty = true
  · rw [if_pos hemp, check_expected_false_iff]
    have hall : ∀ k ∈ docKeys d, k ∈ exp := by
      intro k hk
      have hnil := List.isEmpty_iff.mp hemp
      have := List.filter_eq_nil_iff.mp hnil k hk
      simpa using this
    constructor
    · intro h; exact ⟨hall, h⟩
    · intro h; exact h.2
  · rw [if_neg hemp]
    constructor
    · intro h; exact absurd h (by simp)
    · intro h
      exfalso
      apply hemp
      rw [List.isEmpty_iff, List.filter_eq_nil_iff]
      intro k hk
      simp [h.1 k hk]

theorem mem_docRestrict {d : Doc} {ks : List String} {kv : String × Val}
    (h : kv ∈ docRestrict d ks) : kv ∈ d ∧ kv.1 ∈ ks := by
  have := List.mem_filter.mp h
  exact ⟨this.1, by simpa using this.2⟩

theorem docKeys_docRestrict {d : Doc} {ks : List String} {k : String}
    (h : k ∈ docKeys (docRestrict d ks)) : k ∈ ks := by
  obtain ⟨kv, hkv, hk⟩ := List.mem_map.mp h
  rw [← hk]
  exact (mem_docRestrict hkv).2

theorem load_yaml_ok {fn : String} {fy : YamlParse} {d : Doc}
    (h : load_yaml fn fy = Except.ok d) :
    d = [] ∨ fy = YamlParse.success (Val.vdict d) := by
  cases fy with
  | failure e => exact absurd h (by simp [load_yaml])
  | success v =>
    cases v with
    | vnull =>
      left
      have := Except.ok.inj h
      exact this.symm
    | vdict m =>
      right
      have := Except.ok.inj h
      rw [this]
    | vbool b => exact absurd h (by simp [load_yaml])
    | vnum n => exact absurd h (by simp [load_yaml])
    | vstr s => exact absurd h (by simp [load_yaml])
    | vlist xs => exact absurd h (by simp [load_yaml])

theorem load_core_ok_some {cfg : Config} {fname : String} {fex : Bool} {fmode : Nat}
    {fy : YamlParse} {exp : List String} {a : Doc}
    (h : load_redaction_core cfg fname fex fmode fy exp = Except.ok (some a)) :
    (correct_format a exp fname).1 = false ∧
      (a = [] ∨ fy = YamlParse.success (Val.vdict a)) := by
  rw [load_redaction_core] at h
  split at h
  · split at h
    next => exact absurd h (by simp)
    next =>
      split at h
      next => exact absurd h (by simp)
      next loaded hly =>
        split at h
        next => exact absurd h (by simp)
        next snd hcf =>
          have ha : loaded = a := by
            have := Except.ok.inj h
            exact Option.some.inj this
          rw [← ha]
          refine ⟨by rw [hcf], load_yaml_ok hly⟩
  · exact absurd h (by simp)

theorem core_member_value_ok {cfg : Config} {fname : String} {fex : Bool} {fmode : Nat}
    {fy : YamlParse} {exp : List String} {a : Doc} {kv : String × Val}
    (h : load_redaction_core cfg fname fex fmode fy exp = Except.ok (some a))
    (hwf : nodupYaml fy = true) (hkv : kv ∈ a) : value_ok kv.1 kv.2 = true := by
  obtain ⟨hcf, hsrc⟩ := load_core_ok_some h
  rcases hsrc with rfl | hfy
  · simp at hkv
  · rw [hfy] at hwf
    have hnd : nodupKeys (docKeys a) = true := hwf
    have hfind : docFind a kv.1 = some kv.2 := mem_docFind hnd hkv
    obtain ⟨hkeys, hvals⟩ := (correct_format_fst_false_iff a exp fname).mp hcf
    exact hvals kv.1 (hkeys kv.1 (key_mem_docKeys hkv)) kv.2 hfind

theorem build_rm_conf_mem :
    ∀ {items : List (String × String)} {acc rm : Doc},
      build_rm_conf acc items = Except.ok rm →
      (∀ kv ∈ acc, kv.1 ∈ expected_keys ∧
        ∃ ss : List String, ss ≠ [] ∧ kv.2 = Val.vlist (ss.map Val.vstr)) →
      ∀ kv ∈ rm, kv.1 ∈ expected_keys ∧
        ∃ ss : List String, ss ≠ [] ∧ kv.2 = Val.vlist (ss.map Val.vstr) := by
  intro items
  induction items with
  | nil =>
    intro acc rm h hacc
    rw [build_rm_conf] at h
    have := Except.ok.inj h
    rw [← this]
    exact hacc
  | cons x rest ih =>
    intro acc rm h hacc
    rw [build_rm_conf] at h
    split at h
    next hmem =>
      refine ih h ?_
      intro kv hkv
      rcases mem_insertKV hkv with h1 | h1
      · rw [h1]
        exact ⟨hmem, legacyValue x.2, legacyValue_ne_nil _, rfl⟩
      · exact hacc kv h1
    next => exact absurd h (by simp)

theorem get_rm_conf_old_inv {cfg : Config} {env : Env} {st : ClientState} {d : Doc}
    {st2 : ClientState} (h : get_rm_conf_old cfg env st = Except.ok (some d, st2)) :
    ∀ kv ∈ d, kv.1 ∈ expected_keys ∧
      ∃ ss : List String, ss ≠ [] ∧ kv.2 = Val.vlist (ss.map Val.vstr) := by
  rw [get_rm_conf_old] at h
  split at h
  · split at h
    next => exact absurd h (by simp)
    next =>
      split at h
      next => exact absurd h (by simp)
      next sections =>
        split at h
        next =>
          have := (Prod.mk.injEq _ _ _ _).mp (Except.ok.inj h)
          exact absurd this.1 (by simp)
        next name items restSections =>
          split at h
          next =>
            split at h
            next => exact absurd h (by simp)
            next rm hb =>
              have hd : rm = d := by
                have := (Prod.mk.injEq _ _ _ _).mp (Except.ok.inj h)
                exact Option.some.inj this.1
              rw [← hd]
              exact build_rm_conf_mem hb (by intro kv hkv; simp at hkv)
          next => exact absurd h (by simp)
  · have := (Prod.mk.injEq _ _ _ _).mp (Except.ok.inj h)
    exact absurd this.1 (by simp)

theorem truthyOpt_some {rc : Option Doc} (h : truthyOpt rc = true) :
    ∃ a : Doc, rc = some a := by
  cases rc with
  | none => exact absurd h (by simp [truthyOpt])
  | some a => exact ⟨a, rfl⟩

theorem mem_mergeDocs {rc cc : Option Doc} {kv : String × Val}
    (h : kv ∈ mergeDocs rc cc) :
    (∃ a, rc = some a ∧ kv ∈ a) ∨ ∃ b, cc = some b ∧ kv ∈ b := by
  rw [mergeDocs] at h
  by_cases h2 : truthyOpt cc = true
  · rw [if_pos h2] at h
    obtain ⟨b, hb⟩ := truthyOpt_some h2
    rcases mem_dictUpdate h with h1 | h1
    · by_cases h3 : truthyOpt rc = true
      · rw [if_pos h3] at h1
        obtain ⟨a, ha⟩ := truthyOpt_some h3
        rcases mem_dictUpdate h1 with h4 | h4
        · simp at h4
        · left
          refine ⟨a, ha, ?_⟩
          rw [ha] at h4
          exact h4
      · rw [if_neg h3] at h1
        simp at h1
    · right
      refine ⟨b, hb, ?_⟩
      rw [hb] at h1
      exact h1
  · rw [if_neg h2] at h
    by_cases h3 : truthyOpt rc = true
    · rw [if_pos h3] at h
      obtain ⟨a, ha⟩ := truthyOpt_some h3
      rcases mem_dictUpdate h with h4 | h4
      · simp at h4
      · left
        refine ⟨a, ha, ?_⟩
        rw [ha] at h4
        exact h4
    · rw [if_neg h3] at h
      simp at h

theorem get_rm_conf_ok_cases {cfg : Config} {env : Env} {st : ClientState} {d : Doc}
    {st2 : ClientState} (h : get_rm_conf cfg env st = Except.ok (some d, st2)) :
    get_rm_conf_old cfg env st = Except.ok (some d, st2) ∨
      ∃ rc cc : Option Doc,
        load_redaction_file cfg env RFile.redaction = Except.ok rc ∧
        load_redaction_file cfg env RFile.content = Except.ok cc ∧
        d = (mergeDocs rc cc).filter fun kv => (kv.2).truthy := by
  rw [get_rm_conf] at h
  split at h
  next => exact absurd h (by simp)
  next rc hR =>
    split at h
    next => exact absurd h (by simp)
    next cc hC =>
      split at h
      next => exact Or.inl h
      next =>
        right
        refine ⟨rc, cc, hR, hC, ?_⟩
        have := (Prod.mk.injEq _ _ _ _).mp (Except.ok.inj h)
        exact (Option.some.inj this.1).symm

/-- Claim C1 (counterexample): with the two structured rule files and the
legacy rule file all absent, `get_rm_conf` leaves `using_new_format` at
`false`, not `true`: `get_rm_conf_old` flips the flag unconditionally at
entry (line 200), before checking whether the legacy file exists. -/
theorem C1_counterexample :
    (match get_rm_conf cfg0 envAbs initState with
      | Except.ok (_, stAfter) => stAfter.using_new_format
      | Except.error _ => true) = false := rfl

/-- Claim C1 (amended): when the two structured rule files and the legacy
rule file are all absent, `get_rm_conf` succeeds with no rule set (the
legacy loader's `None`) and `using_new_format` is `false` afterwards,
because `get_rm_conf_old` flips the flag before looking at the disk. -/
theorem C1_amended (cfg : Config) (env : Env) (st : ClientState)
    (h1 : env.redaction_exists = false) (h2 : env.content_exists = false)
    (h3 : env.remove_exists = false) :
    get_rm_conf cfg env st = Except.ok (none, ClientState.mk false st.rm_conf) := by
  simp [get_rm_conf, load_redaction_file, load_redaction_core, get_rm_conf_old,
    truthyOpt, h1, h2, h3]

/-- Witness for C1 (amended) at a concrete all-absent environment. -/
theorem C1_amended_witness :
    get_rm_conf cfg0 envAbs initState = Except.ok (none, ClientState.mk false none) :=
  C1_amended cfg0 envAbs initState rfl rfl rfl

/-- Claim C2 (counterexample): `components`, one of the claim's five
categories, is rejected by the legacy loader with an error naming the key,
because `expected_keys` (line 24) holds only four categories. -/
theorem C2_counterexample :
    get_rm_conf_old cfg0 (legacyEnv "components" "x") initState =
      Except.error
        "ERROR: Unknown key in remove.conf: components\nValid keys are commands, files, patterns, keywords." :=
  rfl

/-- Claim C2 (amended): for the legacy rule file the four recognized
categories `{commands, files, patterns, keywords}` are exactly the valid
keys of the `remove` section; any other key (including `components`) makes
the legacy loader fail with an error naming the offending key. -/
theorem C2_amended (cfg : Config) (item value : String) :
    get_rm_conf_old cfg (legacyEnv item value) initState =
      if item ∈ expected_keys then
        Except.ok (some [(item, Val.vlist ((legacyValue value).map Val.vstr))],
          ClientState.mk false (some [(item, Val.vlist ((legacyValue value).map Val.vstr))]))
      else
        Except.error ("ERROR: Unknown key in remove.conf: " ++ item ++
          "\nValid keys are " ++ String.intercalate ", " expected_keys ++ ".") := by
  by_cases hi : item ∈ expected_keys <;>
    simp [get_rm_conf_old, legacyEnv, mkEnv, permGate, verify_permissions, build_rm_conf,
      insertKV, hi]

/-- Claim C7: `verify_permissions` fails exactly when the mode is not 0600;
for an existing structured rule file with a wrong mode, loading is fatal
precisely in validate (strict) mode, and in non-strict mode the load
proceeds exactly as it would with correct permissions. -/
theorem C7_permissions (f : String) (mode : Nat) (cfg : Config) (env : Env)
    (hex : env.redaction_exists = true) (hmode : env.redaction_mode ≠ 0o600) :
    ((verify_permissions f mode = Except.ok ()) ↔ mode = 0o600) ∧
    (cfg.validate = true →
      load_redaction_file cfg env RFile.redaction =
        Except.error ("ERROR: " ++ ("Invalid permissions on " ++ cfg.redaction_file ++
          ". Expected 0600 got " ++ octString env.redaction_mode))) ∧
    (cfg.validate = false →
      load_redaction_file cfg env RFile.redaction =
        load_redaction_file cfg
          (mkEnv env.remove_exists env.remove_mode env.remove_ini env.redaction_exists 0o600
            env.redaction_yaml env.content_exists env.content_mode env.content_yaml)
          RFile.redaction) := by
  refine ⟨?_, ?_, ?_⟩
  · constructor
    · intro h
      by_contra hm
      rw [verify_permissions, if_neg hm] at h
      exact Except.noConfusion h
    · intro hm
      rw [verify_permissions, if_pos hm]
  · intro hval
    simp [load_redaction_file, load_redaction_core, mkEnv, permGate, verify_permissions,
      hex, hmode, hval]
  · intro hval
    simp [load_redaction_file, load_redaction_core, mkEnv, permGate, verify_permissions,
      hex, hmode, hval]

/-- Witness for C7: a structured rule file with mode 0644 in validate mode
is rejected with the permission error. -/
theorem C7_witness :
    load_redaction_file cfgV envPerm RFile.redaction =
      Except.error ("ERROR: " ++ ("Invalid permissions on " ++ cfgV.redaction_file ++
        ". Expected 0600 got " ++ octString envPerm.redaction_mode)) :=
  (C7_permissions "x" 0 cfgV envPerm rfl (by decide)).2.1 rfl

/-- Claim C8 (counterexample): for a stored `patterns` mapping whose
`regex` sequence is `[""]`, `create_report` reports a patterns count of 0,
not the sequence's length 1, because the count goes through the same
`length` helper as the flat categories. -/
theorem C8_counterexample :
    ((create_report cfg0 (ClientState.mk true
        (some [("patterns", Val.vdict [("regex", Val.vlist [Val.vstr ""])])]))).map
      Report.patterns = some 0) ∧ ([""] : List String).length = 1 :=
  ⟨rfl, rfl⟩

/-- Claim C8 (amended): in `create_report` a stored sequence that is
exactly one empty string counts as zero (so a legacy `files` value that was
the empty string reports `files = 0`); for a mapping-shaped `patterns`
value the count is taken from the nested `regex` sequence by the same
counting rule, and `using_patterns_regex` is reported `true`. -/
theorem C8_amended (cfg : Config) (unf : Bool) (ss : List String) :
    ((create_report cfg (ClientState.mk unf
        (some [("files", Val.vlist [Val.vstr ""])]))).map Report.files = some 0) ∧
    ((create_report cfg (ClientState.mk unf
        (some [("patterns", Val.vdict [("regex", Val.vlist (ss.map Val.vstr))])]))).map
        (fun r => (r.patterns, r.using_patterns_regex)) =
      some ((if ss = [""] then 0 else ss.length), true)) := by
  constructor
  · rfl
  · match ss with
    | [] => rfl
    | [s] =>
      show some (((if s = "" then 0 else 1 : Nat)), true) = _
      by_cases hs : s = "" <;> simp [hs]
    | s :: t :: rest =>
      show some ((((s :: t :: rest).map Val.vstr).length, true)) = _
      simp

/-- Claim C10: a structured rule file that parses to a non-mapping
top-level value is rejected by `load_yaml` with the fatal
`Invalid YAML loaded` error, while an empty document yields an empty
mapping without error. -/
theorem C10_load_yaml (fn : String) (v : Val) (hd : isDict v = false) (hn : v ≠ Val.vnull) :
    load_yaml fn (YamlParse.success v) = Except.error "ERROR: Invalid YAML loaded." ∧
    load_yaml fn (YamlParse.success Val.vnull) = Except.ok [] := by
  refine ⟨?_, rfl⟩
  cases v with
  | vnull => exact absurd rfl hn
  | vdict m => exact absurd hd (by simp [isDict])
  | vbool b => rfl
  | vnum n => rfl
  | vstr s => rfl
  | vlist xs => rfl

/-- Witness for C10 at a top-level list. -/
theorem C10_witness :
    load_yaml "file-redaction.conf" (YamlParse.success (Val.vlist [])) =
        Except.error "ERROR: Invalid YAML loaded." ∧
      load_yaml "file-redaction.conf" (YamlParse.success Val.vnull) = Except.ok [] :=
  C10_load_yaml "file-redaction.conf" (Val.vlist []) rfl
    (fun h => Val.noConfusion h)

/-- Claim C3: when both structured rule files load empty or absent and the
legacy file has mode 0600 and exactly one section `remove` with the line
`commands=cmd1,cmd2`, `get_rm_conf` resolves `commands` to
`["cmd1", "cmd2"]` (stripped, unescaped, comma-split) and
`using_new_format` is `false` afterwards. -/
theorem C3_legacy_commands (cfg : Config) (env : Env) (st : ClientState) (rc cc : Option Doc)
    (hR : load_redaction_file cfg env RFile.redaction = Except.ok rc)
    (hrf : truthyOpt rc = false)
    (hC : load_redaction_file cfg env RFile.content = Except.ok cc)
    (hcf : truthyOpt cc = false)
    (hex : env.remove_exists = true) (hmode : env.remove_mode = 0o600)
    (hini : env.remove_ini =
      IniParse.success [("remove", [("commands", "cmd1,cmd2")])]) :
    get_rm_conf cfg env st =
      Except.ok (some [("commands", Val.vlist [Val.vstr "cmd1", Val.vstr "cmd2"])],
        ClientState.mk false
          (some [("commands", Val.vlist [Val.vstr "cmd1", Val.vstr "cmd2"])])) := by
  rw [get_rm_conf]
  simp only [hR, hC, hrf, hcf, Bool.not_false, Bool.and_self, if_true]
  rw [get_rm_conf_old, hex, hmode, hini]
  rfl

/-- Witness for C3 with the structured files absent on disk. -/
theorem C3_witness :
    get_rm_conf cfg0 envLegacyCmd initState =
      Except.ok (some [("commands", Val.vlist [Val.vstr "cmd1", Val.vstr "cmd2"])],
        ClientState.mk false
          (some [("commands", Val.vlist [Val.vstr "cmd1", Val.vstr "cmd2"])])) :=
  C3_legacy_commands cfg0 envLegacyCmd initState none none rfl rfl rfl rfl rfl rfl rfl

/-- Claim C4: for a document whose `patterns` value is a mapping, the
schema validator errors unless the mapping's sole key is `regex` with a
list-of-strings (or `None`) value; in particular `{regex: "not-a-list"}`,
`{other: [...]}` and any extra key alongside `regex` are errors. -/
theorem C4_patterns_mapping (exp : List String) (fn : String) (m : Doc)
    (hp : "patterns" ∈ exp) :
    (correct_format [("patterns", Val.vdict m)] exp fn).1 = patternsMapError m := by
  have hvo : value_ok "patterns" (Val.vdict m) = !(patternsMapError m) := by
    cases m with
    | nil => rfl
    | cons x xs =>
      cases xs with
      | nil =>
        obtain ⟨k, v⟩ := x
        by_cases hk : k = "regex"
        · subst hk
          simp [value_ok, docFind, patternsMapError]
        · simp [value_ok, docFind, patternsMapError, hk]
      | cons y ys =>
        obtain ⟨k1, v1⟩ := x
        obtain ⟨k2, v2⟩ := y
        cases hr : docFind ((k1, v1) :: (k2, v2) :: ys) "regex" with
        | none => simp [value_ok, hr, patternsMapError]
        | some rv => simp [value_ok, hr, patternsMapError]
  have hsucc : (correct_format [("patterns", Val.vdict m)] exp fn).1 = false ↔
      value_ok "patterns" (Val.vdict m) = true := by
    rw [correct_format_fst_false_iff]
    constructor
    · intro h
      exact h.2 "patterns" hp (Val.vdict m) (by rw [docFind, if_pos rfl])
    · intro h
      constructor
      · intro k hk
        have hk' : k = "patterns" := by simpa [docKeys] using hk
        rw [hk']
        exact hp
      · intro k hk v hv
        rw [docFind] at hv
        split at hv
        next heq =>
          have hv' := Option.some.inj hv
          rw [← heq, ← hv']
          exact h
        next => simp [docFind] at hv
  cases hpe : patternsMapError m with
  | true =>
    have hv2 : value_ok "patterns" (Val.vdict m) = false := by
      rw [hvo, hpe]
      rfl
    cases hb : (correct_format [("patterns", Val.vdict m)] exp fn).1 with
    | false =>
      have := hsucc.mp hb
      rw [hv2] at this
      exact absurd this (by simp)
    | true => rfl
  | false =>
    have hv2 : value_ok "patterns" (Val.vdict m) = true := by
      rw [hvo, hpe]
      rfl
    exact hsucc.mpr hv2

/-- Witness for C4 at a valid single-key regex mapping. -/
theorem C4_witness :
    (correct_format [("patterns", Val.vdict [("regex", Val.vlist [Val.vstr "p"])])]
        ["patterns", "keywords"] "file-content-redaction.conf").1 =
      patternsMapError [("regex", Val.vlist [Val.vstr "p"])] :=
  C4_patterns_mapping ["patterns", "keywords"] "file-content-redaction.conf"
    [("regex", Val.vlist [Val.vstr "p"])] (List.mem_cons_self _ _)

/-- Claim C5: with the structured command/file rule file defining
`commands: [a, b]` and the structured content rule file defining
`patterns: {regex: [p1]}`, `get_rm_conf` returns the plain union of the
two fragments with `using_new_format` still `true`, the subsequent report
has `using_patterns_regex = true`, and the result does not depend on the
legacy file at all (its existence, mode and parse outcome are arbitrary
here, including an unparseable file). -/
theorem C5_structured_union (cfg : Config) (a b p1 : String) (re : Bool) (rm : Nat)
    (ri : IniParse) :
    get_rm_conf cfg
        (mkEnv re rm ri true 0o600
          (YamlParse.success (Val.vdict
            [("commands", Val.vlist [Val.vstr a, Val.vstr b])]))
          true 0o600
          (YamlParse.success (Val.vdict
            [("patterns", Val.vdict [("regex", Val.vlist [Val.vstr p1])])])))
        initState =
      Except.ok (some [("commands", Val.vlist [Val.vstr a, Val.vstr b]),
          ("patterns", Val.vdict [("regex", Val.vlist [Val.vstr p1])])],
        ClientState.mk true (some [("commands", Val.vlist [Val.vstr a, Val.vstr b]),
          ("patterns", Val.vdict [("regex", Val.vlist [Val.vstr p1])])])) ∧
    (create_report cfg
        (ClientState.mk true (some [("commands", Val.vlist [Val.vstr a, Val.vstr b]),
          ("patterns", Val.vdict [("regex", Val.vlist [Val.vstr p1])])]))).map
      (fun r => (r.commands, r.using_new_format, r.using_patterns_regex)) =
      some (2, true, true) :=
  ⟨rfl, rfl⟩

/-- Claim C6: a rule set returned by a successful `get_rm_conf` never
contains a falsy value (`None`, the empty string, the empty list, the
empty mapping): the structured path filters falsy values out, and every
legacy value is a non-empty list of strings. -/
theorem C6_no_falsy_entries (cfg : Config) (env : Env) (st : ClientState) (d : Doc)
    (st2 : ClientState) (h : get_rm_conf cfg env st = Except.ok (some d, st2)) :
    ∀ kv ∈ d, (kv.2).truthy = true := by
  intro kv hkv
  rcases get_rm_conf_ok_cases h with hold | ⟨rc, cc, _, _, hd⟩
  · obtain ⟨_, ss, hne, hv⟩ := get_rm_conf_old_inv hold kv hkv
    rw [hv]
    exact truthy_strlist hne
  · rw [hd] at hkv
    exact (List.mem_filter.mp hkv).2

/-- Witness for C6 on a concrete structured resolution, instantiated at
its single entry. -/
theorem C6_witness :
    ((("commands", Val.vlist [Val.vstr "x"]) : String × Val).2).truthy = true :=
  C6_no_falsy_entries cfg0 envCmd initState [("commands", Val.vlist [Val.vstr "x"])]
    (ClientState.mk true (some [("commands", Val.vlist [Val.vstr "x"])])) rfl
    ("commands", Val.vlist [Val.vstr "x"]) (List.mem_cons_self _ _)

/-- Claim C9: any rule set returned by a successful `get_rm_conf`, split
back into its `{commands, files, components}` document and its
`{patterns, keywords}` document, passes the schema validator again with
the corresponding expected-key sets (the structured representation
round-trips). -/
theorem C9_roundtrip (cfg : Config) (env : Env) (st : ClientState) (d : Doc)
    (st2 : ClientState) (fn1 fn2 : String)
    (hwf1 : nodupYaml env.redaction_yaml = true) (hwf2 : nodupYaml env.content_yaml = true)
    (h : get_rm_conf cfg env st = Except.ok (some d, st2)) :
    (correct_format (docRestrict d ["commands", "files", "components"])
        ["commands", "files", "components"] fn1).1 = false ∧
    (correct_format (docRestrict d ["patterns", "keywords"])
        ["patterns", "keywords"] fn2).1 = false := by
  have hok : ∀ kv ∈ d, value_ok kv.1 kv.2 = true := by
    intro kv hkv
    rcases get_rm_conf_ok_cases h with hold | ⟨rc, cc, hR, hC, hd⟩
    · obtain ⟨_, ss, hne, hv⟩ := get_rm_conf_old_inv hold kv hkv
      rw [hv]
      exact value_ok_strlist _ _
    · rw [hd] at hkv
      have hmem : kv ∈ mergeDocs rc cc := (List.mem_filter.mp hkv).1
      rcases mem_mergeDocs hmem with ⟨adoc, ha, hin⟩ | ⟨bdoc, hb, hin⟩
      · rw [ha] at hR
        have hR' : load_redaction_core cfg cfg.redaction_file env.redaction_exists
            env.redaction_mode env.redaction_yaml ["commands", "files", "components"] =
            Except.ok (some adoc) := hR
        exact core_member_value_ok hR' hwf1 hin
      · rw [hb] at hC
        have hC' : load_redaction_core cfg cfg.content_redaction_file env.content_exists
            env.content_mode env.content_yaml ["patterns", "keywords"] =
            Except.ok (some bdoc) := hC
        exact core_member_value_ok hC' hwf2 hin
  constructor
  · apply (correct_format_fst_false_iff _ _ _).mpr
    refine ⟨fun k hk => docKeys_docRestrict hk, ?_⟩
    intro k _ v hv
    exact hok (k, v) (mem_docRestrict (docFind_mem hv)).1
  · apply (correct_format_fst_false_iff _ _ _).mpr
    refine ⟨fun k hk => docKeys_docRestrict hk, ?_⟩
    intro k _ v hv
    exact hok (k, v) (mem_docRestrict (docFind_mem hv)).1

/-- Witness for C9 on a concrete structured resolution covering both
files. -/
theorem C9_witness :
    (correct_format (docRestrict docBoth ["commands", "files", "components"])
        ["commands", "files", "components"] "file-redaction.conf").1 = false ∧
    (correct_format (docRestrict docBoth ["patterns", "keywords"])
        ["patterns", "keywords"] "file-content-redaction.conf").1 = false :=
  C9_roundtrip cfg0 envBoth initState docBoth (ClientState.mk true (some docBoth))
    "file-redaction.conf" "file-content-redaction.conf" rfl rfl rfl

end CollectionRules
